import Mathlib

/-!
Shallow embedding of the systemd-measure / bootctl-uki measurement-prediction
pipeline (src/measure.c and src/bootctl-uki.c) and proofs of the specified
properties.

Files are modelled as lists of byte values (`List Nat`); message digests
(OpenSSL `EVP_MD`) are modelled as an abstract algorithm record carrying the
digest function and its fixed output size (OpenSSL guarantees a fixed output
size per algorithm, and `measure.c` asserts this after every `EVP_DigestFinal_ex`).
-/

namespace Stubble

/-- Decidable equality for `Except` results, so that witnesses can be checked
by evaluation. -/
instance {ε α : Type} [DecidableEq ε] [DecidableEq α] : DecidableEq (Except ε α) := fun a b =>
  match a, b with
  | Except.ok x, Except.ok y =>
    if h : x = y then Decidable.isTrue (by rw [h])
    else Decidable.isFalse (fun hc => h (Except.ok.inj hc))
  | Except.error x, Except.error y =>
    if h : x = y then Decidable.isTrue (by rw [h])
    else Decidable.isFalse (fun hc => h (Except.error.inj hc))
  | Except.ok _, Except.error _ => Decidable.isFalse (fun hc => Except.noConfusion hc)
  | Except.error _, Except.ok _ => Decidable.isFalse (fun hc => Except.noConfusion hc)

/-- Byte values of an ASCII string. -/
def strBytes (s : String) : List Nat := s.toList.map Char.toNat

/-- A digest algorithm (models an OpenSSL `EVP_MD`): the digest function over
byte sequences together with its fixed output size (`EVP_MD_size`).
`len_ok` records OpenSSL's guarantee that every digest output has exactly the
declared size, which `measure.c` re-checks with `assert` after each
`EVP_DigestFinal_ex`. -/
structure DigestAlg where
  output_size : Nat
  digest : List Nat → List Nat
  len_ok : ∀ m, (digest m).length = output_size

/-- Per-bank PCR state, mirroring `struct PcrState` in src/measure.c:
bank name (lower-cased algorithm name), digest implementation, register
value buffer and its size. -/
structure PcrState where
  bank : String
  md : DigestAlg
  value : List Nat
  value_size : Nat

/-- The fixed, ordered enumeration of boot-measured inputs.
Modelled from the spec: the `UnifiedSection` enumeration itself lives in
`tpm-pcr.h`, which is not among the sources; the order (kernel image,
OS release, command line, initrd, splash, devicetree) is fixed by spec §3
and by the `_ARG_SECTION_FIRST..._ARG_SECTION_LAST` option block of
`parse_argv` in src/measure.c, which is asserted to stay in sync with it. -/
inductive UnifiedSection where
  | linux
  | osrel
  | cmdline
  | initrd
  | splash
  | dtb
deriving DecidableEq, Fintype, Repr

/-- All unified sections in their fixed enumeration order
(the `for (UnifiedSection c = 0; c < _UNIFIED_SECTION_MAX; c++)` loop). -/
def allSections : List UnifiedSection :=
  [.linux, .osrel, .cmdline, .initrd, .splash, .dtb]

/-- Modelled from the spec: the on-disk section-name strings of the
`unified_sections` table (`tpm-pcr.c`, not among the sources); the names
are given by spec §2/§6 (`.linux`, `.osrel`, `.cmdline`, `.initrd`,
`.splash`, `.dtb`). -/
def sectionName : UnifiedSection → List Nat
  | .linux => strBytes ".linux"
  | .osrel => strBytes ".osrel"
  | .cmdline => strBytes ".cmdline"
  | .initrd => strBytes ".initrd"
  | .splash => strBytes ".splash"
  | .dtb => strBytes ".dtb"

/-- `pcr_state_extend` (src/measure.c:227): extends a virtual PCR with the
given data: the new register value is the digest of the old register value
followed by the data. -/
def pcr_state_extend (ps : PcrState) (data : List Nat) : PcrState :=
  { ps with value := ps.md.digest (ps.value ++ data) }

/-- One iteration of the section loop of `measure_pcr` (src/measure.c:300),
for a single bank: skip if no file was supplied for the section; skip if the
file is empty; otherwise extend first by the digest of the section name
(including its trailing NUL byte), then by the digest of the full file
content. The C code streams the content through a per-bank digest context in
16 KiB chunks; the finalized context value equals the digest of the whole
content, which is how it is modelled here. -/
def process_section (c : UnifiedSection) (file : Option (List Nat)) (ps : PcrState) : PcrState :=
  match file with
  | none => ps
  | some content =>
    if content.length = 0 then ps
    else
      let name_hash := ps.md.digest (sectionName c ++ [0])
      let ps1 := pcr_state_extend ps name_hash
      let content_hash := ps1.md.digest content
      pcr_state_extend ps1 content_hash

/-- `measure_pcr` (src/measure.c:263). In `--current` mode the register of
each bank is adopted verbatim from the platform's exposed state (the sysfs
read is modelled by the oracle `currentVals`, indexed by bank name).
Otherwise the engine iterates the unified sections in enumeration order and,
per section, updates every bank via `process_section`. -/
def measure_pcr (current : Bool) (currentVals : String → List Nat)
    (args : UnifiedSection → Option (List Nat)) (states : List PcrState) : List PcrState :=
  if current then
    states.map (fun ps => { ps with value := currentVals ps.bank })
  else
    allSections.foldl (fun sts c => sts.map (process_section c (args c))) states

/-- A requested bank: canonical algorithm name (`EVP_MD_name`) plus its
implementation. -/
structure BankSpec where
  name : String
  md : DigestAlg

/-- The `INT_MAX` bound appearing in the digest-size validation of
`verb_calculate`. -/
def c_INT_MAX : Nat := 2147483647

/-- `ascii_strlower`: lower-cases the ASCII letters A–Z of a string. -/
def asciiLowerChar (c : Char) : Char :=
  if 65 ≤ c.toNat ∧ c.toNat ≤ 90 then Char.ofNat (c.toNat + 32) else c

def ascii_strlower (s : String) : String := String.mk (s.data.map asciiLowerChar)

/-- The bank-state allocation loop of `verb_calculate` (src/measure.c:394):
for each requested bank, validate the digest size, then create a state whose
bank name is the lower-cased algorithm name and whose register is all-zero
bytes of exactly the digest output size. Returns `none` on the first bank
with an invalid digest size ("Unexpected digest size"). -/
def mkPcrStates : List BankSpec → Option (List PcrState)
  | [] => some []
  | b :: t =>
    if b.md.output_size = 0 ∨ c_INT_MAX ≤ b.md.output_size then none
    else
      match mkPcrStates t with
      | none => none
      | some states =>
        some ({ bank := ascii_strlower b.name, md := b.md,
                value := List.replicate b.md.output_size 0,
                value_size := b.md.output_size } :: states)

/-- `verb_calculate` (src/measure.c:380): first the input-validation check
that either `--linux=` was given or `--current` is active; then the bank
states are allocated and `measure_pcr` runs. -/
def verb_calculate (args : UnifiedSection → Option (List Nat)) (current : Bool)
    (currentVals : String → List Nat) (banks : List BankSpec) :
    Except String (List PcrState) :=
  if args UnifiedSection.linux = none ∧ current = false then
    Except.error "Either --linux= or --current must be specified, refusing."
  else
    match mkPcrStates banks with
    | none => Except.error "Unexpected digest size"
    | some states => Except.ok (measure_pcr current currentVals args states)

/-! ## PE/COFF section locator, extractor and kernel classifier
(src/bootctl-uki.c). The input stream is a byte list; `fseek`/`fread` are
modelled by `readBytes` (reading past the end yields fewer bytes, exactly as
`fread` returns a short item count). -/

/-- Bytes obtained by seeking to `pos` and reading up to `n` bytes. -/
def readBytes (file : List Nat) (pos n : Nat) : List Nat := (file.drop pos).take n

/-- Little-endian 16-bit field at byte offset `off` (missing bytes read as 0;
the parse functions only use this on fully read buffers). -/
def le16 (b : List Nat) (off : Nat) : Nat := b.getD off 0 + 256 * b.getD (off + 1) 0

/-- Little-endian 32-bit field at byte offset `off`. -/
def le32 (b : List Nat) (off : Nat) : Nat :=
  b.getD off 0 + 256 * b.getD (off + 1) 0 + 65536 * b.getD (off + 2) 0 +
    16777216 * b.getD (off + 3) 0

/-- `MAX_SECTIONS` (src/bootctl-uki.c:12). -/
def MAX_SECTIONS : Nat := 96

/-- `dos_file_magic` — the bytes of "MZ". -/
def dos_file_magic : List Nat := strBytes "MZ"

/-- `pe_file_magic` — the bytes of "PE\0\0". -/
def pe_file_magic : List Nat := strBytes "PE" ++ [0, 0]

/-- A fixed 8-byte NUL-padded section-name constant, like the static
`name_osrel`/`name_linux`/... arrays of src/bootctl-uki.c. -/
def pad8 (s : String) : List Nat := strBytes s ++ List.replicate (8 - s.length) 0

def name_osrel : List Nat := pad8 ".osrel"
def name_linux : List Nat := pad8 ".linux"
def name_initrd : List Nat := pad8 ".initrd"
def name_cmdline : List Nat := pad8 ".cmdline"
def name_uname : List Nat := pad8 ".uname"

/-- One entry of the PE section table. Modelled from the spec (§3/§6): the
`struct PeSectionHeader` declaration lives in `pe-header.h`, which is not
among the sources; per the spec a record carries a fixed 8-byte NUL-padded
name, a 32-bit virtual size and a 32-bit raw-data file offset, in fixed-size
(40-byte) on-disk records. Only the fields the code reads are retained. -/
structure PeSectionHeader where
  Name : List Nat
  VirtualSize : Nat
  PointerToRawData : Nat
deriving DecidableEq, Repr

/-- Field-by-field decoding of one 40-byte section-header record:
name bytes 0..7, `VirtualSize` little-endian at offset 8,
`PointerToRawData` little-endian at offset 20. -/
def parseSectionHeader (b : List Nat) : PeSectionHeader :=
  { Name := b.take 8, VirtualSize := le32 b 8, PointerToRawData := le32 b 20 }

/-- Decodes `n` consecutive 40-byte section-header records. -/
def parseSections : Nat → List Nat → List PeSectionHeader
  | 0, _ => []
  | n + 1, b => parseSectionHeader (b.take 40) :: parseSections n (b.drop 40)

/-- The PE-header file offset: the little-endian `ExeHeader` field at byte
offset 60 of the DOS header. Modelled from the spec (§4.1/§6): `struct
DosFileHeader` is declared in `pe-header.h`, not among the sources; the spec
specifies a 64-byte DOS header whose 32-bit offset-to-PE-header field sits at
its standard position (offset 60). -/
def peOff (file : List Nat) : Nat := le32 (file.take 64) 60

/-- The 24 bytes of the PE header (4-byte magic followed by the 20-byte COFF
file header), read from `peOff`. Modelled from the spec (§6): 4-byte magic
"PE\0\0", 16-bit section count (at offset 6) and 16-bit optional-header size
(at offset 20) in the standard COFF layout. -/
def peBytes (file : List Nat) : List Nat := readBytes file (peOff file) 24

/-- The declared `NumberOfSections` (little-endian 16-bit at offset 6 of the
PE header). -/
def secCount (file : List Nat) : Nat := le16 (peBytes file) 6

/-- The section-table offset: PE header offset + its 24 bytes + the declared
optional-header size (little-endian 16-bit at offset 20 of the PE header). -/
def secOff (file : List Nat) : Nat := peOff file + 24 + le16 (peBytes file) 20

/-- `pe_sections` (src/bootctl-uki.c:39): parses the DOS and PE headers and
returns either the decoded section table (`some sections`), the explicit
"no sections" result (`none`, the `no_sections:` label, `*ret = NULL`), or a
fatal error. The `no_sections` result is produced by a wrong DOS magic, a
wrong PE magic, or a section count above `MAX_SECTIONS`. -/
def pe_sections (file : List Nat) : Except String (Option (List PeSectionHeader)) :=
  if (file.take 64).length < 2 then
    Except.error "File is smaller than DOS magic"
  else if file.take 2 ≠ dos_file_magic then
    Except.ok none
  else if (file.take 64).length ≠ 64 then
    Except.error "File is smaller than DOS header"
  else if (peBytes file).length ≠ 24 then
    Except.error "PE header read error"
  else if (peBytes file).take 4 ≠ pe_file_magic then
    Except.ok none
  else if MAX_SECTIONS < secCount file then
    Except.ok none
  else if (readBytes file (secOff file) (40 * secCount file)).length ≠ 40 * secCount file then
    Except.error "PE section header read error"
  else
    Except.ok (some (parseSections (secCount file) (readBytes file (secOff file) (40 * secCount file))))

/-- `find_pe_section` (src/bootctl-uki.c:94): index of the first section whose
8-byte name equals the needle (`memcmp_nn` over two 8-byte buffers), if any. -/
def find_pe_section (sections : List PeSectionHeader) (name : List Nat) : Option Nat :=
  sections.findIdx? (fun s => s.Name = name)

/-- `is_uki` (src/bootctl-uki.c:114): the section list contains `.osrel`,
`.linux` and `.initrd`. -/
def is_uki (sections : List PeSectionHeader) : Bool :=
  (find_pe_section sections name_osrel).isSome &&
  (find_pe_section sections name_linux).isSome &&
  (find_pe_section sections name_initrd).isSome

/-- `read_pe_section` (src/bootctl-uki.c:123): an absent section yields the
explicit `none` (not an error); a present section is rejected as fatal when
its virtual size exceeds 16 KiB, then `VirtualSize` bytes are read from
`PointerToRawData` (a short read is a fatal I/O error) into a buffer with one
extra zero sentinel byte; the reported length excludes the sentinel. -/
def read_pe_section (file : List Nat) (sections : List PeSectionHeader)
    (name : List Nat) : Except String (Option (List Nat × Nat)) :=
  match find_pe_section sections name with
  | none => Except.ok none
  | some idx =>
    match sections[idx]? with
    | none => Except.ok none
    | some sec =>
      if 16 * 1024 < sec.VirtualSize then
        Except.error "PE section too big"
      else if (readBytes file sec.PointerToRawData sec.VirtualSize).length ≠ sec.VirtualSize then
        Except.error "PE section read error"
      else
        Except.ok (some (readBytes file sec.PointerToRawData sec.VirtualSize ++ [0], sec.VirtualSize))

/-- Outcome of the external key=value os-release parser (`parse_env_file`,
an external collaborator per spec §1): failure, or the values found for
`PRETTY_NAME` and `NAME` (absent keys yield `none`). -/
inductive EnvParse where
  | failure
  | success (pretty : Option String) (name : Option String)

/-- systemd's `isempty`: a NULL or empty string. -/
def isempty : Option String → Bool
  | none => true
  | some s => s = ""

/-- `uki_read_pretty_name` (src/bootctl-uki.c:174), parameterized by the
external os-release parser. An absent `.osrel` section yields `none`. A
parse failure makes the function return the error (via
`return log_warning_errno(r, "Failed to parse embedded os-release file,
ignoring: %m")`, which returns the negative error code even though its
message says "ignoring"). On success: prefer `PRETTY_NAME`, fall back to
`NAME`, fall back to the literal "Linux". The parser sees exactly the
`osrel_size` reported bytes (`fmemopen(osrel, osrel_size, "r")`), without
the sentinel byte. -/
def uki_read_pretty_name (parse : List Nat → EnvParse) (file : List Nat)
    (sections : List PeSectionHeader) : Except String (Option String) :=
  match read_pe_section file sections name_osrel with
  | Except.error e => Except.error e
  | Except.ok none => Except.ok none
  | Except.ok (some (buf, len)) =>
    match parse (buf.take len) with
    | EnvParse.failure => Except.error "Failed to parse embedded os-release file"
    | EnvParse.success pname name =>
      if isempty pname = false then Except.ok (some (pname.getD ""))
      else if isempty name = false then Except.ok (some (name.getD ""))
      else Except.ok (some "Linux")

/-- `inspect_uki` (src/bootctl-uki.c:224) with all three outputs requested:
read `.cmdline` and `.uname` (buffers only, no length), resolve the pretty
name; any error aborts and propagates. -/
def inspect_uki (parse : List Nat → EnvParse) (file : List Nat)
    (sections : List PeSectionHeader) :
    Except String (Option (List Nat) × Option (List Nat) × Option String) :=
  match read_pe_section file sections name_cmdline with
  | Except.error e => Except.error e
  | Except.ok cmdline =>
    match read_pe_section file sections name_uname with
    | Except.error e => Except.error e
    | Except.ok uname =>
      match uki_read_pretty_name parse file sections with
      | Except.error e => Except.error e
      | Except.ok pname =>
        Except.ok (cmdline.map Prod.fst, uname.map Prod.fst, pname)

/-- `KernelType` (src/bootctl-uki.c:23). -/
inductive KernelType where
  | unknown
  | uki
  | pe
deriving DecidableEq, Repr

/-- The classification part of `inspect_kernel` (src/bootctl-uki.c:266):
a `NULL` section table (the locator's "no sections" result) is `unknown`;
otherwise `uki` when the three mandatory sections are present, else `pe`. -/
def inspect_kernel_type (file : List Nat) : Except String KernelType :=
  match pe_sections file with
  | Except.error e => Except.error e
  | Except.ok none => Except.ok KernelType.unknown
  | Except.ok (some secs) =>
    Except.ok (if is_uki secs then KernelType.uki else KernelType.pe)

/-- Well-formedness of the DOS header for a given stream: correct magic and a
complete 64-byte read. -/
def dos_header_ok (file : List Nat) : Bool :=
  decide (file.take 2 = dos_file_magic) && decide (64 ≤ file.length)

/-- Well-formedness of the PE header: DOS header fine, a complete 24-byte PE
header read, and correct PE magic. -/
def pe_header_ok (file : List Nat) : Bool :=
  dos_header_ok file && decide ((peBytes file).length = 24) &&
    decide ((peBytes file).take 4 = pe_file_magic)

/-! ## Spec-side description of the extension algorithm (for the refinement
claim): these definitions follow the words of spec §4.6, to be compared with
the code-derived `measure_pcr` above. -/

/-- Spec §4.6: `extend(bank, message) = digest(bank.algorithm,
bank.register_value || message)`. -/
def spec_extend (md : DigestAlg) (reg msg : List Nat) : List Nat :=
  md.digest (reg ++ msg)

/-- Spec §4.6 steps 3–4 for one section and one bank: `name_hash` is the
digest of the section name bytes with trailing NUL, `content_hash` the digest
of the full file content; apply `extend` with `name_hash` first, then with
`content_hash`. -/
def spec_section_step (md : DigestAlg) (name content reg : List Nat) : List Nat :=
  spec_extend md (spec_extend md reg (md.digest (name ++ [0]))) (md.digest content)

/-- Spec §4.6 for one bank: process the unified sections in their fixed
enumeration order; a section with no supplied input file is skipped, an
empty file is skipped, otherwise the double extend is applied; the register
value after the last section is the predicted PCR. -/
def spec_predicted_pcr (args : UnifiedSection → Option (List Nat)) (ps : PcrState) : PcrState :=
  { ps with
    value := allSections.foldl (fun reg c =>
      match args c with
      | none => reg
      | some content =>
        if content.length = 0 then reg
        else spec_section_step ps.md (sectionName c) content reg) ps.value }

/-! ## Analysis helpers for the extension engine. -/

/-- The effective content of a section argument: an unsupplied slot and a
supplied empty file are both skipped by the engine. -/
def eff : Option (List Nat) → Option (List Nat)
  | none => none
  | some content => if content.length = 0 then none else some content

/-- The value-level action of `process_section` for one bank. -/
def vstep (md : DigestAlg) (name : List Nat) (o : Option (List Nat)) (v : List Nat) : List Nat :=
  match o with
  | none => v
  | some content =>
    if content.length = 0 then v
    else md.digest (md.digest (v ++ md.digest (name ++ [0])) ++ md.digest content)

/-- The value fold of the whole engine for one bank. -/
def valueFold (md : DigestAlg) (args : UnifiedSection → Option (List Nat))
    (l : List UnifiedSection) (v : List Nat) : List Nat :=
  l.foldl (fun v c => vstep md (sectionName c) (args c) v) v

/-- The two messages a non-skipped section feeds into a bank's extend chain
(name hash first, content hash second); a skipped section contributes none. -/
def block (md : DigestAlg) (name : List Nat) (o : Option (List Nat)) : List (List Nat) :=
  match eff o with
  | none => []
  | some content => [md.digest (name ++ [0]), md.digest content]

/-- All messages a configuration feeds into a bank's extend chain, across a
list of sections in order. -/
def msgsOver (md : DigestAlg) (args : UnifiedSection → Option (List Nat)) :
    List UnifiedSection → List (List Nat)
  | [] => []
  | c :: t => block md (sectionName c) (args c) ++ msgsOver md args t

/-- The canonical TPM extend chain: fold the messages into the register. -/
def extChain (md : DigestAlg) : List Nat → List (List Nat) → List Nat
  | v, [] => v
  | v, m :: ms => extChain md (md.digest (v ++ m)) ms

/-- Swap the input files of two `UnifiedSection` slots. -/
def swapArgs (c1 c2 : UnifiedSection) (args : UnifiedSection → Option (List Nat)) :
    UnifiedSection → Option (List Nat) :=
  fun c => if c = c1 then args c2 else if c = c2 then args c1 else args c

/-! ## Concrete digest algorithms for witnesses. -/

/-- A toy 32-byte digest (not injective): each output byte is the sum of the
input bytes. Used to instantiate theorems at concrete inputs. -/
def toyDigest32 : DigestAlg where
  output_size := 32
  digest := fun m => List.replicate 32 (m.foldl (· + ·) 0)
  len_ok := fun m => List.length_replicate 32 (m.foldl (· + ·) 0)

/-- An injective encoding of byte lists into `Nat`, via iterated pairing. -/
def encodeL : List Nat → Nat
  | [] => 0
  | x :: xs => Nat.pair x (encodeL xs) + 1

theorem encodeL_injective : Function.Injective encodeL := by
  intro a
  induction a with
  | nil =>
    intro b h
    cases b with
    | nil => rfl
    | cons y ys => simp [encodeL] at h
  | cons x xs ih =>
    intro b h
    cases b with
    | nil => simp [encodeL] at h
    | cons y ys =>
      simp only [encodeL, Nat.add_right_cancel_iff] at h
      obtain ⟨h1, h2⟩ := Nat.pair_eq_pair.mp h
      rw [h1, ih h2]

/-- An injective digest with output size 1 (possible because register bytes
are modelled as unbounded naturals). Instantiates the injectivity hypothesis
of the non-commutativity theorem at a concrete input. -/
def toyInjDigest : DigestAlg where
  output_size := 1
  digest := fun m => [encodeL m]
  len_ok := fun _ => rfl

theorem toyInjDigest_injective : Function.Injective toyInjDigest.digest := by
  intro a b h
  have h2 : encodeL a = encodeL b := by
    simpa [toyInjDigest] using congrArg (fun l => l.headI) h
  exact encodeL_injective h2

/-! ## Structure lemmas for the extension engine. -/

theorem process_section_value (c : UnifiedSection) (o : Option (List Nat)) (ps : PcrState) :
    process_section c o ps = { ps with value := vstep ps.md (sectionName c) o ps.value } := by
  cases o with
  | none => rfl
  | some content =>
    simp only [process_section, vstep]
    split <;> rfl

theorem foldl_map_comm (g : UnifiedSection → PcrState → PcrState) :
    ∀ (l : List UnifiedSection) (sts : List PcrState),
      l.foldl (fun sts c => sts.map (g c)) sts = sts.map (fun ps => l.foldl (fun ps c => g c ps) ps) := by
  intro l
  induction l with
  | nil => intro sts; simp
  | cons c t ih =>
    intro sts
    simp only [List.foldl_cons, ih, List.map_map]
    rfl

theorem foldl_process_value (args : UnifiedSection → Option (List Nat)) :
    ∀ (l : List UnifiedSection) (ps : PcrState),
      l.foldl (fun ps c => process_section c (args c) ps) ps =
        { ps with value := valueFold ps.md args l ps.value } := by
  intro l
  induction l with
  | nil => intro ps; rfl
  | cons c t ih =>
    intro ps
    rw [List.foldl_cons, ih, process_section_value]
    simp only [valueFold, List.foldl_cons]

theorem measure_pcr_values (currentVals : String → List Nat)
    (args : UnifiedSection → Option (List Nat)) (states : List PcrState) :
    measure_pcr false currentVals args states =
      states.map (fun ps => { ps with value := valueFold ps.md args allSections ps.value }) := by
  simp only [measure_pcr, if_neg (Bool.false_ne_true), foldl_map_comm, foldl_process_value]

theorem valueFold_congr (md : DigestAlg) (args1 args2 : UnifiedSection → Option (List Nat))
    (h : ∀ c v, vstep md (sectionName c) (args1 c) v = vstep md (sectionName c) (args2 c) v) :
    ∀ (l : List UnifiedSection) (v : List Nat),
      valueFold md args1 l v = valueFold md args2 l v := by
  intro l
  induction l with
  | nil => intro v; rfl
  | cons c t ih =>
    intro v
    simp only [valueFold, List.foldl_cons] at *
    rw [h c v, ih]

theorem valueFold_eq_spec (md : DigestAlg) (args : UnifiedSection → Option (List Nat)) :
    ∀ (l : List UnifiedSection) (v : List Nat),
      valueFold md args l v = l.foldl (fun reg c =>
        match args c with
        | none => reg
        | some content =>
          if content.length = 0 then reg
          else spec_section_step md (sectionName c) content reg) v := by
  intro l
  induction l with
  | nil => intro v; rfl
  | cons c t ih =>
    intro v
    rw [valueFold, List.foldl_cons, List.foldl_cons, ← valueFold, ih]
    congr 1

/-- Concrete fixtures shared by the witnesses: a trivial current-value
oracle, and a single all-zero SHA-256-sized bank state. -/
def cv0 : String → List Nat := fun _ => []

def st32 : PcrState := { bank := "sha256", md := toyDigest32, value := List.replicate 32 0, value_size := 32 }

/-- **C1**: for every configured bank and every supplied, non-empty input
file, the extension engine processes sections in the fixed `UnifiedSection`
enumeration order and, per section per bank, performs exactly two extends in
this order — name hash (section name bytes including the trailing NUL)
first, then content hash (full file content) — the register values after the
last section being the predicted PCR outputs: the code's `measure_pcr`
coincides with the algorithm transcribed from spec §4.6. -/
theorem measure_pcr_refines_spec (currentVals : String → List Nat)
    (args : UnifiedSection → Option (List Nat)) (states : List PcrState) :
    measure_pcr false currentVals args states = states.map (spec_predicted_pcr args) := by
  rw [measure_pcr_values]
  have hfun : (fun ps : PcrState => { ps with value := valueFold ps.md args allSections ps.value }) =
      spec_predicted_pcr args := by
    funext ps
    rw [spec_predicted_pcr, valueFold_eq_spec]
  rw [hfun]

/-- **C5**: supplying an empty (zero-length) file for any `UnifiedSection`
slot yields final register values identical, for every bank, to omitting
that slot's argument entirely. -/
theorem empty_file_omission_equiv (currentVals : String → List Nat)
    (args : UnifiedSection → Option (List Nat)) (states : List PcrState)
    (c : UnifiedSection) (h : args c = some []) :
    measure_pcr false currentVals args states =
      measure_pcr false currentVals (fun x => if x = c then none else args x) states := by
  rw [measure_pcr_values, measure_pcr_values]
  have hfun : ∀ ps : PcrState, valueFold ps.md args allSections ps.value =
      valueFold ps.md (fun x => if x = c then none else args x) allSections ps.value := by
    intro ps
    apply valueFold_congr
    intro c' v
    by_cases hc : c' = c
    · subst hc
      rw [h, if_pos rfl]
      rfl
    · rw [if_neg hc]
  simp only [hfun]

def args_c5 : UnifiedSection → Option (List Nat) :=
  fun c => if c = UnifiedSection.splash then some [] else none

theorem empty_file_omission_equiv_witness :
    args_c5 UnifiedSection.splash = some [] ∧
      measure_pcr false cv0 args_c5 [st32] =
        measure_pcr false cv0 (fun x => if x = UnifiedSection.splash then none else args_c5 x) [st32] :=
  ⟨rfl, empty_file_omission_equiv cv0 args_c5 [st32] UnifiedSection.splash rfl⟩

theorem foldl_extend_md : ∀ (msgs : List (List Nat)) (ps : PcrState),
    (msgs.foldl pcr_state_extend ps).md = ps.md := by
  intro msgs
  induction msgs with
  | nil => intro ps; rfl
  | cons m t ih => intro ps; rw [List.foldl_cons, ih]; rfl

theorem foldl_extend_snoc_len (msgs : List (List Nat)) (ps : PcrState) (m : List Nat) :
    (((msgs ++ [m]).foldl pcr_state_extend ps).value.length = ps.md.output_size) := by
  rw [List.foldl_append, List.foldl_cons, List.foldl_nil]
  show ((msgs.foldl pcr_state_extend ps).md.digest _).length = _
  rw [(msgs.foldl pcr_state_extend ps).md.len_ok, foldl_extend_md]

/-- **C9**: for every digest algorithm and every sequence of extend
operations, after every single extend (the state reached after the first
`i + 1` extends, for any `i` below the sequence length) the register value
has length exactly the bank's digest output size, and the bank's algorithm
(hence its declared output size) is unchanged from initialization. -/
theorem extend_output_size_invariant (ps : PcrState) (msgs : List (List Nat))
    (i : Nat) (h : i < msgs.length) :
    ((msgs.take (i + 1)).foldl pcr_state_extend ps).value.length = ps.md.output_size ∧
      ((msgs.take (i + 1)).foldl pcr_state_extend ps).md = ps.md := by
  have htake : msgs.take (i + 1) = msgs.take i ++ [msgs[i]] := by
    rw [List.take_succ, List.getElem?_eq_getElem h]
    rfl
  constructor
  · rw [htake]
    exact foldl_extend_snoc_len _ _ _
  · exact foldl_extend_md _ _

def msgs_c9 : List (List Nat) := [[5], [6, 7]]

theorem extend_output_size_invariant_witness :
    1 < msgs_c9.length ∧
      (((msgs_c9.take 2).foldl pcr_state_extend st32).value.length = st32.md.output_size ∧
        ((msgs_c9.take 2).foldl pcr_state_extend st32).md = st32.md) :=
  ⟨by decide, extend_output_size_invariant st32 msgs_c9 1 (by decide)⟩

/-- **C10**: `verb_calculate` fails with the fatal input-validation error
"Either --linux= or --current must be specified" — before any bank state is
allocated (the result is this error for every bank list, including invalid
ones) — whenever no input file was supplied for the kernel-image (`--linux`)
slot and "use current values" mode is inactive, regardless of which other
slots are supplied. -/
theorem calculate_requires_linux_or_current (args : UnifiedSection → Option (List Nat))
    (current : Bool) (currentVals : String → List Nat) (banks : List BankSpec)
    (h1 : args UnifiedSection.linux = none) (h2 : current = false) :
    verb_calculate args current currentVals banks =
      Except.error "Either --linux= or --current must be specified, refusing." := by
  rw [verb_calculate, if_pos ⟨h1, h2⟩]

def args_c10 : UnifiedSection → Option (List Nat) :=
  fun c => if c = UnifiedSection.initrd then some [1] else none

theorem calculate_requires_linux_or_current_witness :
    args_c10 UnifiedSection.linux = none ∧
      verb_calculate args_c10 false cv0 [⟨"SHA256", toyDigest32⟩] =
        Except.error "Either --linux= or --current must be specified, refusing." :=
  ⟨rfl, calculate_requires_linux_or_current args_c10 false cv0 _ rfl rfl⟩

def helloBytes : List Nat := strBytes "hello"

def args_hello : UnifiedSection → Option (List Nat) :=
  fun c => if c = UnifiedSection.linux then some helloBytes else none

/-- **C2**: with bank list `["SHA256"]` (any digest algorithm of output size
32) and a single input file in the kernel-image slot whose content is the 5
bytes "hello" (all other slots empty), the final register equals
`H(H(Z || H(".linux" ++ NUL)) || H("hello"))` where `Z` is the 32-byte
all-zero initial register. -/
theorem calculate_sha256_hello (md : DigestAlg) (currentVals : String → List Nat)
    (h : md.output_size = 32) :
    verb_calculate args_hello false currentVals [⟨"SHA256", md⟩] =
      Except.ok [{ bank := "sha256", md := md,
                   value := md.digest (md.digest (List.replicate 32 0 ++
                     md.digest (strBytes ".linux" ++ [0])) ++ md.digest helloBytes),
                   value_size := 32 }] := by
  have hbank : ascii_strlower "SHA256" = "sha256" := by decide
  rw [verb_calculate, if_neg (by simp [args_hello])]
  simp only [mkPcrStates, h, hbank]
  norm_num
  rfl

theorem calculate_sha256_hello_witness :
    toyDigest32.output_size = 32 ∧
      verb_calculate args_hello false cv0 [⟨"SHA256", toyDigest32⟩] =
        Except.ok [{ bank := "sha256", md := toyDigest32,
                     value := toyDigest32.digest (toyDigest32.digest (List.replicate 32 0 ++
                       toyDigest32.digest (strBytes ".linux" ++ [0])) ++ toyDigest32.digest helloBytes),
                     value_size := 32 }] :=
  ⟨rfl, calculate_sha256_hello toyDigest32 cv0 rfl⟩

/-! ## Concrete PE streams for witnesses and counterexamples. -/

def mkLe16 (n : Nat) : List Nat := [n % 256, n / 256 % 256]

/-- A 40-byte section-table record with the given name, zero virtual size
and zero raw-data offset. -/
def secRecord (s : String) : List Nat := pad8 s ++ List.replicate 32 0

/-- A well-formed 64-byte DOS header whose PE-header offset is 64. -/
def dosHeaderBytes : List Nat := strBytes "MZ" ++ List.replicate 58 0 ++ [64, 0, 0, 0]

/-- A 24-byte PE header declaring the given section count and a zero-sized
optional header. -/
def peHeaderBytes (nsections : Nat) : List Nat :=
  strBytes "PE" ++ [0, 0] ++ mkLe16 0 ++ mkLe16 nsections ++ List.replicate 12 0 ++
    mkLe16 0 ++ mkLe16 0

/-- A minimal UKI: valid headers and the three mandatory sections. -/
def fileUki : List Nat :=
  dosHeaderBytes ++ peHeaderBytes 3 ++ secRecord ".osrel" ++ secRecord ".linux" ++
    secRecord ".initrd"

/-- Valid DOS and PE headers declaring 97 sections (over the 96-entry cap). -/
def file97 : List Nat := dosHeaderBytes ++ peHeaderBytes 97

/-- A two-byte stream that is not a PE image at all. -/
def fileXX : List Nat := strBytes "XX"

/-- The section table of `fileUki` as decoded by `pe_sections`. -/
def ukiSecs : List PeSectionHeader :=
  [{ Name := pad8 ".osrel", VirtualSize := 0, PointerToRawData := 0 },
   { Name := pad8 ".linux", VirtualSize := 0, PointerToRawData := 0 },
   { Name := pad8 ".initrd", VirtualSize := 0, PointerToRawData := 0 }]

/-- **C7**: when the DOS and PE headers parse successfully but the declared
`NumberOfSections` exceeds 96, `pe_sections` returns the explicit
"no sections" success result — not an error — exactly as it does for a
stream that is not a PE image at all. -/
theorem section_cap_no_sections :
    (∀ file : List Nat,
      file.take 2 = dos_file_magic → 64 ≤ file.length →
      (peBytes file).length = 24 → (peBytes file).take 4 = pe_file_magic →
      MAX_SECTIONS < secCount file →
      pe_sections file = Except.ok none) ∧
    (∀ g : List Nat, 2 ≤ g.length → g.take 2 ≠ dos_file_magic →
      pe_sections g = Except.ok none) := by
  constructor
  · intro file h1 h2 h3 h4 h5
    have hlen : (file.take 64).length = 64 := by
      rw [List.length_take]
      omega
    rw [pe_sections, if_neg (by omega), if_neg (not_ne_iff.mpr h1), if_neg (by omega),
      if_neg (not_ne_iff.mpr h3), if_neg (not_ne_iff.mpr h4), if_pos h5]
  · intro g hg1 hg2
    have hlen : (g.take 64).length = min 64 g.length := List.length_take 64 g
    rw [pe_sections, if_neg (by omega), if_pos hg2]

theorem section_cap_no_sections_witness :
    (file97.take 2 = dos_file_magic ∧ 64 ≤ file97.length ∧ (peBytes file97).length = 24 ∧
      (peBytes file97).take 4 = pe_file_magic ∧ MAX_SECTIONS < secCount file97 ∧
      pe_sections file97 = Except.ok none) ∧
    (2 ≤ fileXX.length ∧ fileXX.take 2 ≠ dos_file_magic ∧ pe_sections fileXX = Except.ok none) :=
  ⟨⟨by decide, by decide, by decide, by decide, by decide,
    section_cap_no_sections.1 file97 (by decide) (by decide) (by decide) (by decide) (by decide)⟩,
   ⟨by decide, by decide, section_cap_no_sections.2 fileXX (by decide) (by decide)⟩⟩

/-- **C6**: reading a named section yields the explicit "absent" value `none`
(not an error, distinct from any present result) when the name is not found;
when found, it fails with the fatal "PE section too big" error when the
virtual size exceeds 16 KiB; a short read at `PointerToRawData` is the fatal
"PE section read error"; otherwise the result is exactly the `VirtualSize`
bytes at `PointerToRawData` plus one extra zero sentinel byte, with the
reported length not counting the sentinel. -/
theorem read_pe_section_contract (file : List Nat) (sections : List PeSectionHeader)
    (name : List Nat) :
    (find_pe_section sections name = none →
      read_pe_section file sections name = Except.ok none) ∧
    (∀ idx sec, find_pe_section sections name = some idx → sections[idx]? = some sec →
      (16 * 1024 < sec.VirtualSize →
        read_pe_section file sections name = Except.error "PE section too big") ∧
      (sec.VirtualSize ≤ 16 * 1024 → (file.drop sec.PointerToRawData).length < sec.VirtualSize →
        read_pe_section file sections name = Except.error "PE section read error") ∧
      (sec.VirtualSize ≤ 16 * 1024 → sec.VirtualSize ≤ (file.drop sec.PointerToRawData).length →
        read_pe_section file sections name =
          Except.ok (some (readBytes file sec.PointerToRawData sec.VirtualSize ++ [0],
            sec.VirtualSize)) ∧
        (readBytes file sec.PointerToRawData sec.VirtualSize ++ [0]).length =
          sec.VirtualSize + 1)) := by
  constructor
  · intro h
    rw [read_pe_section, h]
  · intro idx sec hfind hget
    have hrblen : (readBytes file sec.PointerToRawData sec.VirtualSize).length =
        min sec.VirtualSize (file.drop sec.PointerToRawData).length := by
      rw [readBytes, List.length_take]
    refine ⟨?_, ?_, ?_⟩
    · intro hbig
      simp only [read_pe_section, hfind, hget]
      rw [if_pos hbig]
    · intro hsz hshort
      simp only [read_pe_section, hfind, hget]
      rw [if_neg (by omega), if_pos (by rw [hrblen]; omega)]
    · intro hsz henough
      refine ⟨?_, ?_⟩
      · simp only [read_pe_section, hfind, hget]
        rw [if_neg (by omega), if_neg (by rw [hrblen]; omega)]
      · rw [List.length_append, hrblen]
        simp only [List.length_cons, List.length_nil]
        omega

def fileC6 : List Nat := [10, 11, 12, 13, 14]

def sectionsC6 : List PeSectionHeader :=
  [{ Name := pad8 ".linux", VirtualSize := 20000, PointerToRawData := 0 },
   { Name := pad8 ".initrd", VirtualSize := 3, PointerToRawData := 100 },
   { Name := pad8 ".osrel", VirtualSize := 2, PointerToRawData := 1 }]

theorem read_pe_section_contract_witness :
    (find_pe_section sectionsC6 name_uname = none ∧
      read_pe_section fileC6 sectionsC6 name_uname = Except.ok none) ∧
    (find_pe_section sectionsC6 name_linux = some 0 ∧ 16 * 1024 < 20000 ∧
      read_pe_section fileC6 sectionsC6 name_linux = Except.error "PE section too big") ∧
    (find_pe_section sectionsC6 name_initrd = some 1 ∧
      (fileC6.drop 100).length < 3 ∧
      read_pe_section fileC6 sectionsC6 name_initrd = Except.error "PE section read error") ∧
    (find_pe_section sectionsC6 name_osrel = some 2 ∧
      read_pe_section fileC6 sectionsC6 name_osrel = Except.ok (some ([11, 12, 0], 2))) :=
  ⟨⟨by decide, (read_pe_section_contract fileC6 sectionsC6 name_uname).1 (by decide)⟩,
   ⟨by decide, by decide,
    ((read_pe_section_contract fileC6 sectionsC6 name_linux).2 0 _ (by decide) rfl).1 (by decide)⟩,
   ⟨by decide, by decide,
    ((read_pe_section_contract fileC6 sectionsC6 name_initrd).2 1 _ (by decide) rfl).2.1
      (by decide) (by decide)⟩,
   ⟨by decide,
    (((read_pe_section_contract fileC6 sectionsC6 name_osrel).2 2 _ (by decide) rfl).2.2
      (by decide) (by decide)).1⟩⟩

theorem dos_header_ok_iff (file : List Nat) :
    dos_header_ok file = true ↔ (file.take 2 = dos_file_magic ∧ 64 ≤ file.length) := by
  simp [dos_header_ok]

theorem pe_header_ok_iff (file : List Nat) :
    pe_header_ok file = true ↔
      (dos_header_ok file = true ∧ (peBytes file).length = 24 ∧
        (peBytes file).take 4 = pe_file_magic) := by
  simp [pe_header_ok, and_assoc]

theorem pe_sections_ok_none_iff (file : List Nat) :
    pe_sections file = Except.ok none ↔
      ((2 ≤ file.length ∧ file.take 2 ≠ dos_file_magic) ∨
       (dos_header_ok file = true ∧ (peBytes file).length = 24 ∧
         (peBytes file).take 4 ≠ pe_file_magic) ∨
       (pe_header_ok file = true ∧ MAX_SECTIONS < secCount file)) := by
  have hmin : (file.take 64).length = min 64 file.length := List.length_take 64 file
  rw [pe_sections]
  split_ifs with h1 h2 h3 h4 h5 h6 h7
  · simp only [false_iff]
    intro hr
    rcases hr with ⟨hl, _⟩ | ⟨hd, _⟩ | ⟨hp, _⟩
    · omega
    · have := (dos_header_ok_iff file).mp hd
      omega
    · have := (dos_header_ok_iff file).mp ((pe_header_ok_iff file).mp hp).1
      omega
  · simp only [true_iff]
    exact Or.inl ⟨by omega, h2⟩
  · simp only [false_iff]
    intro hr
    rcases hr with ⟨_, hm⟩ | ⟨hd, _⟩ | ⟨hp, _⟩
    · exact hm (not_not.mp h2)
    · have := (dos_header_ok_iff file).mp hd
      omega
    · have := (dos_header_ok_iff file).mp ((pe_header_ok_iff file).mp hp).1
      omega
  · simp only [false_iff]
    intro hr
    rcases hr with ⟨_, hm⟩ | ⟨_, hd, _⟩ | ⟨hp, _⟩
    · exact hm (not_not.mp h2)
    · exact h4 hd
    · exact h4 ((pe_header_ok_iff file).mp hp).2.1
  · simp only [true_iff]
    refine Or.inr (Or.inl ⟨(dos_header_ok_iff file).mpr ⟨not_not.mp h2, by omega⟩, not_not.mp h4, h5⟩)
  · simp only [true_iff]
    refine Or.inr (Or.inr ⟨(pe_header_ok_iff file).mpr
      ⟨(dos_header_ok_iff file).mpr ⟨not_not.mp h2, by omega⟩, not_not.mp h4, not_not.mp h5⟩, h6⟩)
  · simp only [false_iff]
    intro hr
    rcases hr with ⟨_, hm⟩ | ⟨_, _, hp⟩ | ⟨_, hc⟩
    · exact hm (not_not.mp h2)
    · exact hp (not_not.mp h5)
    · exact h6 hc
  · simp only [Except.ok.injEq, false_iff, reduceCtorEq]
    intro hr
    rcases hr with ⟨_, hm⟩ | ⟨_, _, hp⟩ | ⟨_, hc⟩
    · exact hm (not_not.mp h2)
    · exact hp (not_not.mp h5)
    · exact h6 hc

/-- **C3** (amended): for every input stream on which the locator succeeds,
the classifier returns `uki` iff the located section list contains all three
of `.osrel`, `.linux`, `.initrd` (exact 8-byte NUL-padded matches); it
returns `pe` iff a section list was located (DOS and PE headers parsed, at
most 96 declared sections) but the triplet is incomplete; and it returns
`unknown` iff the locator reported "no sections", which happens iff the DOS
magic is present but wrong, the PE magic is read but wrong, or — beyond the
original claim — the headers are fine but the declared section count
exceeds the 96-entry cap. -/
theorem kernel_classification (file : List Nat) (r : Option (List PeSectionHeader))
    (h : pe_sections file = Except.ok r) :
    (inspect_kernel_type file = Except.ok KernelType.uki ↔
      ∃ secs, r = some secs ∧ is_uki secs = true) ∧
    (inspect_kernel_type file = Except.ok KernelType.pe ↔
      ∃ secs, r = some secs ∧ is_uki secs = false) ∧
    (inspect_kernel_type file = Except.ok KernelType.unknown ↔ r = none) ∧
    (r = none ↔
      ((2 ≤ file.length ∧ file.take 2 ≠ dos_file_magic) ∨
       (dos_header_ok file = true ∧ (peBytes file).length = 24 ∧
         (peBytes file).take 4 ≠ pe_file_magic) ∨
       (pe_header_ok file = true ∧ MAX_SECTIONS < secCount file))) := by
  have hchar := pe_sections_ok_none_iff file
  cases r with
  | none =>
    simp only [inspect_kernel_type, h]
    refine ⟨by simp, by simp, by simp, ?_⟩
    rw [← hchar]
    simp [h]
  | some secs =>
    simp only [inspect_kernel_type, h]
    by_cases hu : is_uki secs
    · refine ⟨by simp [hu], by simp [hu], by simp [hu], ?_⟩
      rw [← hchar]
      constructor
      · intro hx
        exact absurd hx (by simp)
      · intro hx
        rw [h] at hx
        exact absurd hx (by simp)
    · refine ⟨?_, ?_, by simp [hu], ?_⟩
      · simp only [if_neg hu]
        constructor
        · intro hx
          exact absurd hx (by simp)
        · rintro ⟨s2, hs2, hs2u⟩
          cases Option.some_inj.mp hs2
          exact absurd hs2u hu
      · simp only [if_neg hu]
        constructor
        · intro _
          exact ⟨secs, rfl, by simpa using hu⟩
        · intro _
          trivial
      · rw [← hchar]
        constructor
        · intro hx
          exact absurd hx (by simp)
        · intro hx
          rw [h] at hx
          exact absurd hx (by simp)

/-- The claim's unamended iff-characterization is false: `file97` has
well-formed DOS and PE headers (so per the claim it should classify as `pe`
and not as `unknown`), yet the classifier returns `unknown` because the
declared section count 97 exceeds the cap. -/
theorem kernel_classification_claim_counterexample :
    dos_header_ok file97 = true ∧ pe_header_ok file97 = true ∧ secCount file97 = 97 ∧
      inspect_kernel_type file97 = Except.ok KernelType.unknown ∧
      inspect_kernel_type file97 ≠ Except.ok KernelType.pe := by
  decide

theorem kernel_classification_witness :
    pe_sections fileUki = Except.ok (some ukiSecs) ∧ is_uki ukiSecs = true ∧
      inspect_kernel_type fileUki = Except.ok KernelType.uki :=
  ⟨by decide, by decide,
   ((kernel_classification fileUki (some ukiSecs) (by decide)).1).mpr ⟨ukiSecs, rfl, by decide⟩⟩

/-- An os-release parser that fails (models `parse_env_file` returning a
negative error on malformed key=value data). -/
def parseFail : List Nat → EnvParse := fun _ => EnvParse.failure

/-- A parser returning empty results (both keys absent). -/
def parseEmpty : List Nat → EnvParse := fun _ => EnvParse.success none none

/-- **C4** (code bug): on a UKI whose `.osrel` section is present but whose
embedded os-release data fails to parse, `uki_read_pretty_name` returns the
parse failure as an error — the code does `return log_warning_errno(r,
"Failed to parse embedded os-release file, ignoring: %m")`, which returns
the negative error code even though its own message says "ignoring" — and
`inspect_uki` propagates it, aborting the inspection rather than continuing
with a default name as the claim (and the code's own log message) state.
For contrast, the second pair of conjuncts shows the successful-parse path
at the same input: an `.osrel` with no usable keys resolves to the literal
"Linux" and the inspection completes. -/
theorem osrel_parse_failure_aborts :
    (uki_read_pretty_name parseFail fileUki ukiSecs =
        Except.error "Failed to parse embedded os-release file" ∧
      inspect_uki parseFail fileUki ukiSecs =
        Except.error "Failed to parse embedded os-release file") ∧
    (uki_read_pretty_name parseEmpty fileUki ukiSecs = Except.ok (some "Linux") ∧
      inspect_uki parseEmpty fileUki ukiSecs = Except.ok (none, none, some "Linux")) := by
  decide

/-! ## Non-commutativity analysis: a bank's final register determines the
message transcript when the digest is injective with fixed output size. -/

theorem block_eq_nil (md : DigestAlg) (n : List Nat) (o : Option (List Nat))
    (h : eff o = none) : block md n o = [] := by
  simp only [block, h]

theorem block_eq_cons (md : DigestAlg) (n : List Nat) (o : Option (List Nat)) {a : List Nat}
    (h : eff o = some a) : block md n o = [md.digest (n ++ [0]), md.digest a] := by
  simp only [block, h]

theorem block_length (md : DigestAlg) (n : List Nat) (o : Option (List Nat)) :
    (block md n o).length = if (eff o).isSome then 2 else 0 := by
  rcases he : eff o with _ | a
  · rw [block_eq_nil _ _ _ he]
    rfl
  · rw [block_eq_cons _ _ _ he]
    rfl

theorem extChain_append_list (md : DigestAlg) :
    ∀ (xs ys : List (List Nat)) (v : List Nat),
      extChain md v (xs ++ ys) = extChain md (extChain md v xs) ys := by
  intro xs
  induction xs with
  | nil => intro ys v; rfl
  | cons x t ih => intro ys v; rw [List.cons_append, extChain, extChain, ih]

theorem extChain_append (md : DigestAlg) :
    ∀ (ms : List (List Nat)) (v m : List Nat),
      extChain md v (ms ++ [m]) = md.digest (extChain md v ms ++ m) := by
  intro ms v m
  rw [extChain_append_list, extChain, extChain]

theorem extChain_length (md : DigestAlg) :
    ∀ (ms : List (List Nat)) (v : List Nat), v.length = md.output_size →
      (extChain md v ms).length = md.output_size := by
  intro ms
  induction ms with
  | nil => intro v hv; exact hv
  | cons m t ih => intro v _; rw [extChain]; exact ih _ (md.len_ok _)

theorem extChain_msgs_inj (md : DigestAlg) (hinj : Function.Injective md.digest) :
    ∀ (ms1 ms2 : List (List Nat)) (v : List Nat),
      (∀ m ∈ ms1, m.length = md.output_size) →
      (∀ m ∈ ms2, m.length = md.output_size) →
      ms1.length = ms2.length → v.length = md.output_size →
      extChain md v ms1 = extChain md v ms2 → ms1 = ms2 := by
  intro ms1
  induction ms1 using List.reverseRecOn with
  | nil =>
    intro ms2 v _ _ hlen _ _
    exact (List.eq_nil_of_length_eq_zero hlen.symm).symm
  | append_singleton t1 m1 ih =>
    intro ms2 v h1 h2 hlen hv heq
    rcases ms2.eq_nil_or_concat with rfl | ⟨t2, m2, rfl⟩
    · simp at hlen
    · rw [List.concat_eq_append] at h2 hlen heq ⊢
      rw [extChain_append, extChain_append] at heq
      have heq2 := hinj heq
      have hl : (extChain md v t1).length = (extChain md v t2).length := by
        rw [extChain_length md t1 v hv, extChain_length md t2 v hv]
      obtain ⟨hpre, hsuf⟩ := List.append_inj heq2 hl
      have hlen2 : t1.length = t2.length := by
        simp only [List.length_append, List.length_cons, List.length_nil] at hlen
        omega
      have ht : t1 = t2 := ih t2 v (fun m hm => h1 m (by simp [hm]))
        (fun m hm => h2 m (by simp [hm])) hlen2 hv hpre
      rw [ht, hsuf]

theorem vstep_eq_extChain_block (md : DigestAlg) (n : List Nat) (o : Option (List Nat))
    (v : List Nat) : vstep md n o v = extChain md v (block md n o) := by
  cases o with
  | none => rfl
  | some content =>
    by_cases hl : content.length = 0
    · rw [block_eq_nil _ _ _ (by simp only [eff, if_pos hl])]
      simp only [vstep, if_pos hl]
      rfl
    · have he : eff (some content) = some content := by simp only [eff, if_neg hl]
      rw [block_eq_cons _ _ _ he]
      simp only [vstep, if_neg hl]
      rfl

theorem valueFold_eq_extChain (md : DigestAlg) (args : UnifiedSection → Option (List Nat)) :
    ∀ (l : List UnifiedSection) (v : List Nat),
      valueFold md args l v = extChain md v (msgsOver md args l) := by
  intro l
  induction l with
  | nil => intro v; rfl
  | cons c t ih =>
    intro v
    rw [valueFold, List.foldl_cons, ← valueFold, ih, msgsOver, extChain_append_list,
      vstep_eq_extChain_block]

theorem msgs_mem_length (md : DigestAlg) (args : UnifiedSection → Option (List Nat)) :
    ∀ (l : List UnifiedSection), ∀ m ∈ msgsOver md args l, m.length = md.output_size := by
  intro l
  induction l with
  | nil =>
    intro m hm
    rw [msgsOver] at hm
    exact absurd hm (List.not_mem_nil m)
  | cons c t ih =>
    intro m hm
    rw [msgsOver] at hm
    rcases List.mem_append.mp hm with hb | ht
    · rcases he : eff (args c) with _ | a
      · rw [block_eq_nil _ _ _ he] at hb
        exact absurd hb (List.not_mem_nil m)
      · rw [block_eq_cons _ _ _ he] at hb
        simp only [List.mem_cons, List.not_mem_nil, or_false] at hb
        rcases hb with rfl | rfl <;> exact md.len_ok _
    · exact ih m ht

theorem msgs_head_name (md : DigestAlg) (args : UnifiedSection → Option (List Nat)) :
    ∀ (l : List UnifiedSection) (e : List Nat) (rest : List (List Nat)),
      msgsOver md args l = e :: rest → ∃ c, c ∈ l ∧ e = md.digest (sectionName c ++ [0]) := by
  intro l
  induction l with
  | nil =>
    intro e rest h
    rw [msgsOver] at h
    exact absurd h (fun hc => List.noConfusion hc)
  | cons c0 t ih =>
    intro e rest h
    rw [msgsOver] at h
    rcases he : eff (args c0) with _ | a
    · rw [block_eq_nil _ _ _ he, List.nil_append] at h
      obtain ⟨c', hc', he'⟩ := ih e rest h
      exact ⟨c', List.mem_cons_of_mem _ hc', he'⟩
    · rw [block_eq_cons _ _ _ he, List.cons_append] at h
      exact ⟨c0, List.mem_cons_self c0 t, (List.cons.inj h).1.symm⟩

theorem sectionName_inj : ∀ c c' : UnifiedSection, sectionName c = sectionName c' → c = c' := by
  decide

theorem msgs_decode (md : DigestAlg) (hinj : Function.Injective md.digest) :
    ∀ (l : List UnifiedSection), l.Nodup →
      ∀ args1 args2, msgsOver md args1 l = msgsOver md args2 l →
        ∀ c ∈ l, eff (args1 c) = eff (args2 c) := by
  intro l
  induction l with
  | nil =>
    intro _ args1 args2 _ c hc
    exact absurd hc (List.not_mem_nil c)
  | cons c0 t ih =>
    intro hnd args1 args2 heq c hc
    have hnd2 := List.nodup_cons.mp hnd
    rw [msgsOver, msgsOver] at heq
    rcases he1 : eff (args1 c0) with _ | a <;> rcases he2 : eff (args2 c0) with _ | b
    · rw [block_eq_nil _ _ _ he1, block_eq_nil _ _ _ he2, List.nil_append,
        List.nil_append] at heq
      rcases List.mem_cons.mp hc with rfl | hct
      · rw [he1, he2]
      · exact ih hnd2.2 args1 args2 heq c hct
    · rw [block_eq_nil _ _ _ he1, block_eq_cons _ _ _ he2, List.nil_append,
        List.cons_append] at heq
      obtain ⟨c', hc', he'⟩ := msgs_head_name md args1 t _ _ heq
      have : c' = c0 := sectionName_inj c' c0
        (List.append_cancel_right (hinj he'.symm))
      rw [this] at hc'
      exact absurd hc' hnd2.1
    · rw [block_eq_cons _ _ _ he1, block_eq_nil _ _ _ he2, List.cons_append,
        List.nil_append] at heq
      obtain ⟨c', hc', he'⟩ := msgs_head_name md args2 t _ _ heq.symm
      have : c' = c0 := sectionName_inj c' c0
        (List.append_cancel_right (hinj he'.symm))
      rw [this] at hc'
      exact absurd hc' hnd2.1
    · rw [block_eq_cons _ _ _ he1, block_eq_cons _ _ _ he2, List.cons_append,
        List.cons_append] at heq
      have h2 := (List.cons.inj heq).2
      have hab : a = b := hinj (List.cons.inj h2).1
      have htail := (List.cons.inj h2).2
      rcases List.mem_cons.mp hc with rfl | hct
      · rw [he1, he2, hab]
      · exact ih hnd2.2 args1 args2 htail c hct

theorem msgsOver_swap_length (md : DigestAlg) (args : UnifiedSection → Option (List Nat))
    (c1 c2 : UnifiedSection) (h : c1 ≠ c2) :
    (msgsOver md (swapArgs c1 c2 args) allSections).length =
      (msgsOver md args allSections).length := by
  cases c1 <;> cases c2 <;> (try exact absurd rfl h) <;>
    simp [msgsOver, allSections, swapArgs, block_length] <;> omega

/-- **C8** (amended): swapping the input files of two distinct
`UnifiedSection` slots changes a bank's final register value, provided the
two slots' effective contents (unsupplied and empty files coalesce) differ
and the bank's digest function is injective — the record of the claim's
order-sensitivity that is actually provable: with identical contents in the
two slots (the original claim only excluded two *empty* slots) the final
registers are unchanged, and without collision-freedom of the digest nothing
can be guaranteed. -/
theorem swap_changes_register (ps : PcrState) (currentVals : String → List Nat)
    (args : UnifiedSection → Option (List Nat)) (c1 c2 : UnifiedSection)
    (hne : c1 ≠ c2) (hinj : Function.Injective ps.md.digest)
    (hlen : ps.value.length = ps.md.output_size)
    (heff : eff (args c1) ≠ eff (args c2)) :
    (measure_pcr false currentVals (swapArgs c1 c2 args) [ps]).map PcrState.value ≠
      (measure_pcr false currentVals args [ps]).map PcrState.value := by
  intro hcontra
  rw [measure_pcr_values, measure_pcr_values] at hcontra
  simp only [List.map_cons, List.map_nil, List.cons.injEq, and_true] at hcontra
  rw [valueFold_eq_extChain, valueFold_eq_extChain] at hcontra
  have hmsgs := extChain_msgs_inj ps.md hinj _ _ _
    (msgs_mem_length ps.md (swapArgs c1 c2 args) allSections)
    (msgs_mem_length ps.md args allSections)
    (msgsOver_swap_length ps.md args c1 c2 hne) hlen hcontra
  have hdec := msgs_decode ps.md hinj allSections (by decide) _ _ hmsgs c1 (by cases c1 <;> decide)
  rw [swapArgs] at hdec
  rw [if_pos rfl] at hdec
  exact heff hdec.symm

def args_c8 : UnifiedSection → Option (List Nat) :=
  fun c => if c = UnifiedSection.linux then some [1] else none

def stInj : PcrState := { bank := "toy", md := toyInjDigest, value := [0], value_size := 1 }

theorem swap_changes_register_witness :
    UnifiedSection.linux ≠ UnifiedSection.osrel ∧
      stInj.value.length = stInj.md.output_size ∧
      eff (args_c8 UnifiedSection.linux) ≠ eff (args_c8 UnifiedSection.osrel) ∧
      (measure_pcr false cv0 (swapArgs UnifiedSection.linux UnifiedSection.osrel args_c8)
          [stInj]).map PcrState.value ≠
        (measure_pcr false cv0 args_c8 [stInj]).map PcrState.value :=
  ⟨by decide, rfl, by decide,
   swap_changes_register stInj cv0 args_c8 UnifiedSection.linux UnifiedSection.osrel
     (by decide) toyInjDigest_injective rfl (by decide)⟩

def args_c8eq : UnifiedSection → Option (List Nat) :=
  fun c => if c = UnifiedSection.linux ∨ c = UnifiedSection.osrel then some [7] else none

/-- The original C8 claim is false as stated: the kernel-image and
OS-release slots are distinct and both hold the same non-empty one-byte file,
yet swapping the two slots leaves every configured bank's final register
value unchanged. -/
theorem swap_claim_counterexample :
    UnifiedSection.linux ≠ UnifiedSection.osrel ∧
      args_c8eq UnifiedSection.linux = some [7] ∧
      args_c8eq UnifiedSection.osrel = some [7] ∧
      (measure_pcr false cv0 (swapArgs UnifiedSection.linux UnifiedSection.osrel args_c8eq)
          [st32]).map PcrState.value =
        (measure_pcr false cv0 args_c8eq [st32]).map PcrState.value := by
  refine ⟨by decide, rfl, rfl, ?_⟩
  rfl

end Stubble
